import Mathlib


/-!
# Verification of the COVID sample app core (`src/covid_analysis.py`)

Shallow embedding of the data-handling core of the Streamlit script:
the built-in fallback dataset (`SAMPLE_CSV`), the column-restricted reader
(`read_uploaded_file`), the clamped seeded sampler inside
`load_small_sample`, the numeric-coercion loop, the top-countries
aggregation (`total_cases` / `top`), the date stringification (`to_download`)
and the three export payloads (`csv_bytes`, `tsv_bytes`, `make_excel_bytes`),
together with the orchestration of the script body (`runApp`).

Modelling conventions:
* a pandas `DataFrame` is a `Frame`: an ordered list of column names plus an
  ordered list of rows, each row a list of `Cell`s;
* an uploaded file is modelled after byte-level tokenisation as a `SrcFile`
  (header plus cell rows); byte parsing itself is delegated by the source to
  pandas and is outside the model, while the column projection (`usecols`),
  the missing-column failure, the sampling, the coercion, the aggregation and
  the CSV/TSV serialisation are modelled from the source lines;
* floats are modelled by exact rationals (`ℚ`), `NaN`/missing by
  `Cell.missing`; `round` is Python's banker's rounding (`pyRound`) and
  `astype(int)` is truncation toward zero (`pyInt`);
* rational arithmetic inside definitions uses kernel-computable primitives
  (`mkRat`, `Rat.blt`, integer division); the lemmas `qmul_eq`, `qlt_iff`,
  `qle_iff`, `qmax_eq`, `qmin_eq`, `qsubInt_eq` and `ratFloor_eq` identify
  them with the mathematical operations on `ℚ`;
* the numpy generator behind `DataFrame.sample(frac, random_state=42)` is
  modelled by a deterministic congruential generator (`lcg`): the claims
  under verification depend only on the draw being a pure function of the
  seed and on the number of rows drawn, never on which rows are drawn.
-/
/-! ## Computable rational arithmetic and its bridge to `ℚ` -/
/-- Computable strict comparison on `ℚ` (the core `Rat.blt`). -/
def qlt (a b : ℚ) : Bool := Rat.blt a b

/-- Computable multiplication on `ℚ`. -/
def qmul (a b : ℚ) : ℚ := mkRat (a.num * b.num) (a.den * b.den)

/-- Computable `q - z` for an integer `z`. -/
def qsubInt (q : ℚ) (z : ℤ) : ℚ := mkRat (q.num - z * q.den) q.den

/-- Computable maximum on `ℚ` (Python's `max(a, b)`). -/
def qmax (a b : ℚ) : ℚ := if qlt a b then b else a

/-- Computable minimum on `ℚ` (Python's `min(a, b)`). -/
def qmin (a b : ℚ) : ℚ := if qlt a b then a else b

/-- Computable floor of a rational. -/
def ratFloor (q : ℚ) : ℤ := q.num / q.den

/-! ## Data model -/
/-- One value of a pandas cell: a parsed calendar date, a piece of text,
a (rational-modelled) number, or a missing value (`NaN`). -/
inductive Cell where
  | date (y m d : Nat)
  | text (s : String)
  | num (q : ℚ)
  | missing
deriving DecidableEq

/-- A pandas `DataFrame`: ordered column names plus ordered rows. -/
structure Frame where
  cols : List String
  rows : List (List Cell)
deriving DecidableEq

/-- An uploaded file, seen after tokenisation: the file name (the source
dispatches on its extension), the header row, and the data rows. -/
structure SrcFile where
  name : String
  header : List String
  rows : List (List Cell)
deriving DecidableEq

/-- Errors of the load path (spec taxonomy): `formatError` for a file whose
columns do not include every required column, `parseError` for byte streams
the underlying pandas parser rejects (byte-level parsing is delegated to the
library and not modelled further). -/
inductive LoadErr where
  | formatError
  | parseError
deriving DecidableEq

instance : DecidableEq (Except LoadErr Frame) := fun a b =>
  match a, b with
  | .ok x, .ok y =>
      if h : x = y then isTrue (by rw [h]) else isFalse (by simp [h])
  | .error x, .error y =>
      if h : x = y then isTrue (by rw [h]) else isFalse (by simp [h])
  | .ok _, .error _ => isFalse (by simp)
  | .error _, .ok _ => isFalse (by simp)

/-- `use_cols` of `read_uploaded_file` (src line 70): the columns kept from
an uploaded file. -/
def use_cols : List String :=
  ["Date_reported", "Country", "WHO_region", "New_cases", "Cumulative_cases",
   "New_deaths", "Cumulative_deaths"]

/-- The built-in fallback dataset (src lines 18-35), as parsed by
`pd.read_csv(StringIO(SAMPLE_CSV), parse_dates=["Date_reported"])`
(src line 89): all eight columns of the literal, in the literal's order,
dates parsed, empty numeric cells read as missing. -/
def SAMPLE_CSV : Frame :=
  { cols := ["Date_reported", "Country_code", "Country", "WHO_region",
             "New_cases", "Cumulative_cases", "New_deaths", "Cumulative_deaths"],
    rows :=
      [[.date 2020 1 4, .text "NE", .text "Niger", .text "AFR", .missing, .num 0, .missing, .num 0],
       [.date 2020 1 4, .text "NO", .text "Norway", .text "EUR", .missing, .num 0, .missing, .num 0],
       [.date 2020 1 4, .text "PW", .text "Palau", .text "WPR", .num 0, .num 0, .num 0, .num 0],
       [.date 2020 1 4, .text "PY", .text "Paraguay", .text "AMR", .missing, .num 0, .missing, .num 0],
       [.date 2020 1 4, .text "PN", .text "Pitcairn", .text "WPR", .num 0, .num 0, .num 0, .num 0],
       [.date 2020 1 4, .text "SH", .text "Saint Helena", .text "AFR", .missing, .num 0, .missing, .num 0],
       [.date 2020 1 4, .text "SM", .text "San Marino", .text "EUR", .missing, .num 0, .missing, .num 0],
       [.date 2020 1 4, .text "RS", .text "Serbia", .text "EUR", .missing, .num 0, .missing, .num 0],
       [.date 2020 1 4, .text "ZA", .text "South Africa", .text "AFR", .num 0, .num 0, .num 0, .num 0],
       [.date 2020 1 4, .text "ES", .text "Spain", .text "EUR", .num 0, .num 0, .num 0, .num 0],
       [.date 2020 1 4, .text "TH", .text "Thailand", .text "SEAR", .num 0, .num 0, .num 0, .num 0],
       [.date 2020 1 4, .text "VU", .text "Vanuatu", .text "WPR", .num 0, .num 0, .num 0, .num 0],
       [.date 2020 1 4, .text "VE", .text "Venezuela (Bolivarian Republic of)", .text "AMR", .missing, .num 0, .missing, .num 0],
       [.date 2020 1 4, .text "AI", .text "Anguilla", .text "AMR", .missing, .num 0, .missing, .num 0],
       [.date 2020 1 4, .text "AZ", .text "Azerbaijan", .text "EUR", .missing, .num 0, .missing, .num 0],
       [.date 2020 1 4, .text "BT", .text "Bhutan", .text "SEAR", .num 0, .num 0, .num 0, .num 0]] }

/-- `read_uploaded_file` (src lines 67-80).  All three extension branches of
the source apply the same `usecols=use_cols, parse_dates=["Date_reported"]`
restriction to the tokenised grid, so the model does not need to dispatch on
`name`.  pandas keeps the selected columns in the order they appear in the
file (`usecols` element order is ignored), and raises when some requested
column is absent; that failure is the spec's `FormatError`. -/
def read_uploaded_file (f : SrcFile) : Except LoadErr Frame :=
  if use_cols.all (fun c => f.header.contains c) then
    .ok { cols := f.header.filter (fun c => use_cols.contains c),
          rows := f.rows.map (fun r =>
            ((f.header.zip r).filter (fun p => use_cols.contains p.1)).map Prod.snd) }
  else
    .error .formatError

/-- The clamp of src line 95: `frac = max(0.01, min(0.5, fraction / 100.0))`. -/
def clampFrac (fraction : ℤ) : ℚ :=
  qmax (mkRat 1 100) (qmin (mkRat 1 2) (mkRat fraction 100))

/-- Python's built-in `round` (used by pandas to turn `frac` into a row
count): round half to even. -/
def pyRound (q : ℚ) : ℤ :=
  let f := ratFloor q
  let r := qsubInt q f
  if qlt r (mkRat 1 2) then f
  else if qlt (mkRat 1 2) r then f + 1
  else if f % 2 = 0 then f else f + 1

/-- Deterministic pseudo-random step standing in for the numpy generator that
`random_state=42` seeds.  Only determinism matters to the verified claims. -/
def lcg (s : Nat) : Nat :=
  (s * 1103515245 + 12345) % 2147483648

/-- Draw `k` rows without replacement from `pool`, deterministically from
`seed`: the model of `DataFrame.sample`'s seeded selection.  Output order is
the draw order; the source then applies `reset_index(drop=True)`, so
original positions are not retained. -/
def drawFrom {α : Type} (seed : Nat) : Nat → List α → List α
  | 0, _ => []
  | _ + 1, [] => []
  | k + 1, x :: xs =>
      let i := seed % (x :: xs).length
      (x :: xs).get ⟨i, Nat.mod_lt _ (Nat.succ_pos xs.length)⟩ ::
        drawFrom (lcg seed) k ((x :: xs).eraseIdx i)

/-- `DataFrame.sample(frac=frac, random_state=rs)` on the rows of a frame:
the row count is `round(frac * len(df))` (Python rounding); the seed is the
explicit `random_state` when given, otherwise the ambient global generator
state. -/
def pandasSample (randomState : Option Nat) (ambient : Nat) (frac : ℚ)
    (rows : List (List Cell)) : List (List Cell) :=
  drawFrom (randomState.getD ambient) (pyRound (qmul frac (mkRat rows.length 1))).toNat rows

/-- `load_small_sample` (src lines 86-97).  `ambient` is the ambient global
random-generator state of the run; the source pins `random_state=42`, so the
ambient state is never consulted.  With `use_builtin_sample` the fallback
frame is returned whole, bypassing sampling; otherwise the uploaded file is
read (required columns only) and sampled at the clamped fraction.  A `None`
upload on the non-builtin path raises in the source (reading `None`); the
orchestration boundary catches it like any other load failure. -/
def load_small_sample (ambient : Nat) (uploaded_file : Option SrcFile)
    (fraction : ℤ) (use_builtin_sample : Bool) : Except LoadErr Frame :=
  if use_builtin_sample then
    .ok SAMPLE_CSV
  else
    match uploaded_file with
    | none => .error .parseError
    | some file =>
      match read_uploaded_file file with
      | .error e => .error e
      | .ok df_full =>
          .ok { cols := df_full.cols,
                rows := pandasSample (some 42) ambient (clampFrac fraction) df_full.rows }

/-! ## Numeric coercion (src lines 113-116) -/
/-- Index of the first column named `c` (pandas column lookup). -/
def colIdx (c : String) : List String → Nat
  | [] => 0
  | x :: xs => if x = c then 0 else colIdx c xs + 1

/-- Replace the cell at position `i` of a row by `g` of it. -/
def updateAt : Nat → (Cell → Cell) → List Cell → List Cell
  | _, _, [] => []
  | 0, g, x :: xs => g x :: xs
  | i + 1, g, x :: xs => x :: updateAt i g xs

/-- Computable negation on `ℚ`. -/
def qneg (q : ℚ) : ℚ := mkRat (-q.num) q.den

/-- Computable addition on `ℚ`. -/
def qadd (a b : ℚ) : ℚ := mkRat (a.num * b.den + b.num * a.den) (a.den * b.den)

/-- Accumulate a decimal digit string. -/
def parseNatAux (acc : Nat) : List Char → Option Nat
  | [] => some acc
  | c :: cs => if c.isDigit then parseNatAux (acc * 10 + (c.toNat - 48)) cs else none

/-- Split a character list at the first `.` (decimal point). -/
def splitDot : List Char → List Char × Option (List Char)
  | [] => ([], none)
  | c :: cs =>
      if c = '.' then ([], some cs)
      else
        let p := splitDot cs
        (c :: p.1, p.2)

/-- The numeric strings accepted by the model of `pd.to_numeric`: an optional
leading minus sign, then decimal digits with an optional fractional part
(`"3"`, `"-2.5"`, `".5"`, `"3."`).  Anything else fails to coerce. -/
def parseNumStr (s : String) : Option ℚ :=
  let cs := s.data
  let p := match cs with
    | c :: r => if c = '-' then (true, r) else (false, cs)
    | [] => (false, ([] : List Char))
  let body := splitDot p.2
  let fp := body.2.getD []
  if body.1.isEmpty && fp.isEmpty then none
  else
    match parseNatAux 0 body.1, parseNatAux 0 fp with
    | some i, some fr =>
        let mag : ℚ := qadd (mkRat i 1) (mkRat fr (10 ^ fp.length))
        some (if p.1 then qneg mag else mag)
    | _, _ => none

/-- `pd.to_numeric(·, errors="coerce")` on one cell: numbers pass through,
numeric text is parsed, anything unparseable becomes missing (`NaN`) — never
an error and never zero.  (The source only applies this to the four count
columns, which never hold dates.) -/
def toNumeric : Cell → Cell
  | .num q => .num q
  | .text s =>
      match parseNumStr s with
      | some q => .num q
      | none => .missing
  | .date _ _ _ => .missing
  | .missing => .missing

/-- The four columns of the coercion loop (src line 114). -/
def numericCols : List String :=
  ["New_cases", "Cumulative_cases", "New_deaths", "Cumulative_deaths"]

/-- One iteration of the coercion loop (src lines 114-116):
`if col in df.columns: df[col] = pd.to_numeric(df[col], errors="coerce")`. -/
def coerceCol (c : String) (f : Frame) : Frame :=
  if f.cols.contains c then
    { cols := f.cols, rows := f.rows.map (updateAt (colIdx c f.cols) toNumeric) }
  else f

/-- The whole coercion loop over the four count columns. -/
def coerceFrame (f : Frame) : Frame :=
  numericCols.foldl (fun df col => coerceCol col df) f

/-! ## Aggregation (src lines 122-125) -/
/-- Python's `int()` on a float / pandas `astype(int)`: truncation toward
zero. -/
def pyInt (q : ℚ) : ℤ :=
  if qlt q 0 then -ratFloor (qneg q) else ratFloor q

/-- Maximum of the numeric cells of a list, skipping non-numbers: pandas
`Series.max()` with its default `skipna=True`; `none` when no numeric value
is present (after coercion non-numeric cells are exactly the missing ones). -/
def cellsMax : List Cell → Option ℚ
  | [] => none
  | c :: cs =>
      let rest := cellsMax cs
      match c with
      | .num q =>
          match rest with
          | some m => some (qmax q m)
          | none => some q
      | _ => rest

/-- `total_cases` (src line 123):
`df.groupby("Country", dropna=True)["Cumulative_cases"].max().fillna(0).astype(int).reset_index()`.
Group keys are the distinct non-missing `Country` cells (`dropna=True` drops
`NaN` keys); each group's value is the maximum `Cumulative_cases`, missing
maxima filled with 0, truncated to an integer.  pandas emits the groups
sorted by key; the model keeps a deduplicated key list instead — the key
order is irrelevant to every claim because `top` re-sorts by value. -/
def total_cases (df : Frame) : List (Cell × ℤ) :=
  let ci := colIdx "Country" df.cols
  let vi := colIdx "Cumulative_cases" df.cols
  let keys := ((df.rows.map (fun r => r.getD ci .missing)).filter
    (fun c => c ≠ .missing)).dedup
  keys.map (fun k =>
    (k, pyInt ((cellsMax ((df.rows.filter (fun r => r.getD ci .missing = k)).map
      (fun r => r.getD vi .missing))).getD 0)))

/-- Descending comparison on aggregate rows: row `a` may precede row `b`
when `b`'s value is at most `a`'s. -/
def aggLE (a b : Cell × ℤ) : Prop := b.2 ≤ a.2

instance : DecidableRel aggLE := fun a b => inferInstanceAs (Decidable (b.2 ≤ a.2))

instance : IsTotal (Cell × ℤ) aggLE := ⟨fun a b => le_total b.2 a.2⟩

instance : IsTrans (Cell × ℤ) aggLE := ⟨fun _ _ _ h1 h2 => le_trans h2 h1⟩

/-- `top` (src line 124):
`total_cases.sort_values("Cumulative_cases", ascending=False).head(10)`.
The model sorts with a stable insertion sort; pandas' default quicksort may
permute equal values differently, which no claim observes. -/
def top (df : Frame) : List (Cell × ℤ) :=
  (List.insertionSort aggLE (total_cases df)).take 10

/-! ## Date stringification and export (src lines 171-190) -/
/-- Zero-pad to two digits (`strftime` `%m`, `%d`). -/
def pad2 (n : Nat) : String := if n < 10 then "0" ++ Nat.repr n else Nat.repr n

/-- Zero-pad to four digits (`strftime` `%Y`). -/
def pad4 (n : Nat) : String :=
  if n < 10 then "000" ++ Nat.repr n
  else if n < 100 then "00" ++ Nat.repr n
  else if n < 1000 then "0" ++ Nat.repr n
  else Nat.repr n

/-- `strftime("%Y-%m-%d")` of a calendar date. -/
def fmtDate (y m d : Nat) : String := pad4 y ++ "-" ++ pad2 m ++ "-" ++ pad2 d

/-- `.dt.strftime("%Y-%m-%d")` on one cell (src line 173); the pipeline only
applies it to the parsed `Date_reported` column. -/
def strftimeCell : Cell → Cell
  | .date y m d => .text (fmtDate y m d)
  | c => c

/-- `to_download` (src lines 171-173): a copy of the frame with the
`Date_reported` column rendered as `YYYY-MM-DD` text, when present. -/
def to_download (df : Frame) : Frame :=
  if df.cols.contains "Date_reported" then
    { cols := df.cols,
      rows := df.rows.map (updateAt (colIdx "Date_reported" df.cols) strftimeCell) }
  else df

/-- Decimal expansion of the fractional part `r` (`0 ≤ r < 1`), up to `fuel`
digits.  Every value the pipeline produces is a finite decimal, so the fuel
is never exhausted in practice. -/
def fracDigits : Nat → ℚ → String
  | 0, _ => ""
  | fuel + 1, r =>
      if r = 0 then ""
      else
        let r10 := qmul r (mkRat 10 1)
        Nat.repr (ratFloor r10).toNat ++ fracDigits fuel (qsubInt r10 (ratFloor r10))

/-- Decimal text of a number, the model of how a numeric cell prints in the
payloads.  (pandas prints the shortest float representation; the exact digit
string is immaterial to the claims, which compare payloads with each other
and with missing cells.) -/
def renderQ (q : ℚ) : String :=
  let neg := qlt q 0
  let a := if neg then qneg q else q
  let fr := qsubInt a (ratFloor a)
  (if neg then "-" else "") ++ Nat.repr (ratFloor a).toNat ++
    (if fr = 0 then "" else "." ++ fracDigits 30 fr)

/-- The text a cell contributes to an export payload: text verbatim, numbers
in decimal, missing as the empty field (`to_csv` and `to_excel` both write
`NaN` as empty — not zero).  Date cells are stringified by `to_download`
before any export, so the date branch is unreachable in the pipeline. -/
def renderCell : Cell → List Char
  | .text s => s.data
  | .num q => (renderQ q).data
  | .date y m d => (fmtDate y m d).data
  | .missing => []

/-- The grid of an export: the header row (`to_csv(index=False)` keeps the
header, drops the index) followed by the rendered data rows. -/
def renderGrid (df : Frame) : List (List (List Char)) :=
  df.cols.map String.data :: df.rows.map (fun r => r.map renderCell)

/-- Is `c` a character that forces quoting of a field (the delimiter, the
quote character, or a record break)? -/
def specialChar (d c : Char) : Bool := c = d || c = '"' || c = '\n'

/-- Does a field need quoting (csv `QUOTE_MINIMAL`)? -/
def needsQuote (d : Char) (f : List Char) : Bool := f.any (specialChar d)

/-- Double every quote character (csv quote escaping). -/
def dupQuotes : List Char → List Char
  | [] => []
  | c :: cs => if c = '"' then '"' :: '"' :: dupQuotes cs else c :: dupQuotes cs

/-- Serialise one field for delimiter `d`, quoting only when needed. -/
def escapeField (d : Char) (f : List Char) : List Char :=
  if needsQuote d f then '"' :: (dupQuotes f ++ ['"']) else f

/-- Join fields with the delimiter. -/
def joinFields (d : Char) : List (List Char) → List Char
  | [] => []
  | [f] => f
  | f :: g :: fs => f ++ d :: joinFields d (g :: fs)

/-- Serialise one record. -/
def writeRecord (d : Char) (fields : List (List Char)) : List Char :=
  joinFields d (fields.map (escapeField d))

/-- Serialise a grid: each record terminated by a newline — the layout
`DataFrame.to_csv(index=False, sep=d)` emits. -/
def writeDelim (d : Char) (g : List (List (List Char))) : List Char :=
  (g.map (fun r => writeRecord d r ++ ['\n'])).flatten

/-- `csv_bytes` (src line 176): the comma payload.  UTF-8 byte encoding of
the character stream is the library's and is not modelled. -/
def csv_bytes (df : Frame) : List Char := writeDelim ',' (renderGrid df)

/-- `tsv_bytes` (src line 180): the tab payload. -/
def tsv_bytes (df : Frame) : List Char := writeDelim '\t' (renderGrid df)

/-- `make_excel_bytes` (src lines 184-187), modelled at the level of the
single sheet's cell grid that `to_excel(index=False, engine="openpyxl")`
writes: header row then data rows, missing cells empty.  The xlsx zip/XML
container around the sheet is the library's byte encoding and is not
modelled. -/
def make_excel_bytes (df : Frame) : List (List (List Char)) := renderGrid df

/-! ## Parsing a payload back (the spec's round-trip check) -/
/-- Quote-state transition while scanning. -/
def flipQ (inQ : Bool) (c : Char) : Bool := if c = '"' then !inQ else inQ

/-- Prepend a character to the first chunk of a split result. -/
def consHd (c : Char) : List (List Char) → List (List Char)
  | [] => [[c]]
  | f :: fs => (c :: f) :: fs

/-- Split a character stream at every unquoted occurrence of `stop`,
tracking the quote state — the record/field scanner of a standard csv
reader (`pd.read_csv` semantics on well-formed input). -/
def splitQ (stop : Char) : Bool → List Char → List (List Char)
  | _, [] => [[]]
  | inQ, c :: cs =>
      if c = stop && !inQ then [] :: splitQ stop inQ cs
      else consHd c (splitQ stop (flipQ inQ c) cs)

/-- Collapse doubled quote characters. -/
def undup : List Char → List Char
  | [] => []
  | [c] => [c]
  | c :: d :: cs =>
      if c = '"' then
        if d = '"' then '"' :: undup cs else c :: undup (d :: cs)
      else c :: undup (d :: cs)

/-- Undo field quoting: strip an outer quote pair and collapse doubled
quotes; unquoted fields pass through. -/
def unescapeField : List Char → List Char
  | [] => []
  | c :: rest => if c = '"' then undup rest.dropLast else c :: rest

/-- Parse a delimited payload back into a grid: split into records at
unquoted newlines, drop blank records (`read_csv` skips blank lines), split
each record at unquoted delimiters, unquote each field. -/
def parseDelim (d : Char) (s : List Char) : List (List (List Char)) :=
  ((splitQ '\n' false s).filter (fun r => !r.isEmpty)).map
    (fun line => (splitQ d false line).map unescapeField)

/-! ## Orchestration (the script body) -/
/-- What one run of the script shows the user: either the single error
message with the interaction halted (src lines 102-104), or the preview
plus aggregate plus the three download payloads. -/
inductive Outcome where
  | halted (msg : String)
  | shown (preview : Frame) (agg : Option (List (Cell × ℤ)))
      (csv tsv : List Char) (xlsx : List (List (List Char)))
deriving DecidableEq

/-- The one user-visible load-failure message (src line 103). -/
def loadErrorMsg : String :=
  "Could not load data. If you uploaded a file, make sure it is a valid CSV/TSV/XLS/XLSX with expected columns."

/-- `df.head(10)` for the preview (src line 111). -/
def frameHead (n : Nat) (df : Frame) : Frame := ⟨df.cols, df.rows.take n⟩

/-- The script body (src lines 50-190): derive `use_builtin` from the
upload, load inside the try/except boundary, halt with the single message on
any failure; otherwise preview the raw sampled frame (src line 111), then
coerce the four count columns in place (src lines 114-116), aggregate when
`Cumulative_cases` exists (src lines 122-127), stringify dates and build the
three payloads from the same frame (src lines 171-190). -/
def runApp (ambient : Nat) (uploaded : Option SrcFile) (pct : ℤ) : Outcome :=
  let use_builtin := uploaded.isNone
  match load_small_sample ambient uploaded pct use_builtin with
  | .error _ => .halted loadErrorMsg
  | .ok df =>
      let preview := frameHead 10 df
      let df2 := coerceFrame df
      let agg := if df2.cols.contains "Cumulative_cases" then some (top df2) else none
      let td := to_download df2
      .shown preview agg (csv_bytes td) (tsv_bytes td) (make_excel_bytes td)

/-- The preview component of an outcome, when one is shown. -/
def previewOf : Outcome → Option Frame
  | .shown p _ _ _ _ => some p
  | .halted _ => none

/-! ## Claim C1: sampled row count -/
/-- A well-formed two-row upload used to instantiate hypotheses. -/
def fileW : SrcFile :=
  { name := "w.csv",
    header := use_cols,
    rows :=
      [[.date 2020 3 1, .text "A", .text "R", .num 1, .num 10, .num 0, .num 0],
       [.date 2020 3 2, .text "B", .text "R", .num 2, .num 20, .num 0, .num 0]] }

/-- The frame `read_uploaded_file` produces from `fileW`. -/
def frameW : Frame := { cols := use_cols, rows := fileW.rows }

/-- The coercion loop over an arbitrary column list. -/
def coerceFold (cs : List String) (f : Frame) : Frame :=
  cs.foldl (fun df col => coerceCol col df) f

/-- A two-country frame instantiating C5's hypotheses. -/
def aggW : Frame :=
  { cols := ["Country", "Cumulative_cases"],
    rows := [[.text "A", .num 10], [.text "B", .num 3]] }

/-- A frame with a negative cumulative-cases value. -/
def negFrame : Frame :=
  { cols := ["Country", "Cumulative_cases"],
    rows := [[.text "A", .num (-1)]] }

/-- An upload missing the `Country` column. -/
def fileNoCountry : SrcFile :=
  { name := "bad.csv",
    header := ["Date_reported", "WHO_region", "New_cases", "Cumulative_cases",
               "New_deaths", "Cumulative_deaths"],
    rows := [] }

/-- A header holding the seven required columns in reversed order. -/
def fileRev : SrcFile :=
  { name := "rev.csv",
    header := ["Cumulative_deaths", "New_deaths", "Cumulative_cases", "New_cases",
               "WHO_region", "Country", "Date_reported"],
    rows := [] }

/-- The frame the pipeline produces from `fileRev` (no rows, so the sample
is empty). -/
def frameRev : Frame := { cols := fileRev.header, rows := [] }

/-- A two-row upload whose `New_cases` values are non-numeric text. -/
def fileRaw : SrcFile :=
  { name := "raw.csv",
    header := use_cols,
    rows :=
      [[.date 2020 3 1, .text "A", .text "R", .text "x", .num 5, .num 0, .num 0],
       [.date 2020 3 2, .text "B", .text "R", .text "x", .num 7, .num 0, .num 0]] }

/-- The sampled frame `load` draws from `fileRaw` at 50 percent: one row,
still holding the raw text `"x"` in `New_cases`. -/
def frameRaw : Frame :=
  { cols := use_cols,
    rows := [[.date 2020 3 1, .text "A", .text "R", .text "x", .num 5, .num 0, .num 0]] }

/-! ## The csv round trip (claim C6) -/
/-- Quote state after scanning a chunk. -/
def scanState : Bool → List Char → Bool
  | inQ, [] => inQ
  | inQ, c :: cs => scanState (flipQ inQ c) cs

/-- `true` when a chunk contains no unquoted occurrence of `stop`. -/
def cleanFor (stop : Char) : Bool → List Char → Bool
  | _, [] => true
  | inQ, c :: cs => !(c = stop && !inQ) && cleanFor stop (flipQ inQ c) cs

/-- A small frame exercising the exporter, a delimiter inside a field
included. -/
def expW : Frame :=
  { cols := ["Country", "New_cases"],
    rows := [[.text "A,B", .num 2], [.text "C", .missing]] }

/-- A frame whose present cumulative values are non-negative and one of
whose countries has only missing cumulative values. -/
def nnW : Frame :=
  { cols := ["Country", "Cumulative_cases"],
    rows := [[.text "A", .num 4], [.text "B", .missing]] }

/-! ## Theorems -/

theorem qlt_iff (a b : ℚ) : qlt a b = true ↔ a < b := Iff.rfl

theorem qle_iff (a b : ℚ) : qlt b a = false ↔ a ≤ b := by
  rw [← Bool.not_eq_true, qlt_iff]
  exact not_lt

theorem qmul_eq (a b : ℚ) : qmul a b = a * b := (Rat.mul_eq_mkRat a b).symm

theorem ratFloor_eq (q : ℚ) : ratFloor q = ⌊q⌋ := Rat.floor_def.symm

theorem qsubInt_eq (q : ℚ) (z : ℤ) : qsubInt q z = q - z := by
  rw [qsubInt, Rat.mkRat_eq_div]
  push_cast
  rw [sub_div, mul_div_assoc, Rat.num_div_den,
    div_self (by exact_mod_cast q.den_pos.ne'), mul_one]

theorem qmax_eq (a b : ℚ) : qmax a b = max a b := by
  rw [qmax, max_def]
  rcases lt_trichotomy a b with h | h | h
  · rw [if_pos ((qlt_iff a b).mpr h), if_pos h.le]
  · subst h
    rw [if_pos le_rfl]
    split <;> rfl
  · rw [if_neg (by rw [qlt_iff]; exact not_lt.mpr h.le), if_neg (not_le.mpr h)]

theorem qmin_eq (a b : ℚ) : qmin a b = min a b := by
  rw [qmin, min_def]
  rcases lt_trichotomy a b with h | h | h
  · rw [if_pos ((qlt_iff a b).mpr h), if_pos h.le]
  · subst h
    rw [if_pos le_rfl]
    split <;> rfl
  · rw [if_neg (by rw [qlt_iff]; exact not_lt.mpr h.le), if_neg (not_le.mpr h)]

/-! ## Lemmas about the sampler -/
theorem drawFrom_nil {α : Type} (seed k : Nat) : drawFrom (α := α) seed k [] = [] := by
  cases k <;> rfl

theorem drawFrom_length {α : Type} :
    ∀ (seed k : Nat) (pool : List α), (drawFrom seed k pool).length = min k pool.length
  | _, 0, pool => by simp [drawFrom]
  | _, _ + 1, [] => by simp [drawFrom]
  | seed, k + 1, x :: xs => by
      have hi : seed % (xs.length + 1) < (x :: xs).length :=
        Nat.mod_lt _ (Nat.succ_pos xs.length)
      simp only [drawFrom, List.length_cons]
      rw [drawFrom_length (lcg seed) k ((x :: xs).eraseIdx (seed % (xs.length + 1)))]
      rw [List.length_eraseIdx_of_lt hi]
      simp only [List.length_cons]
      omega

theorem drawFrom_subset {α : Type} :
    ∀ (seed k : Nat) (pool : List α) (a : α), a ∈ drawFrom seed k pool → a ∈ pool
  | _, 0, pool, a => by simp [drawFrom]
  | _, _ + 1, [], a => by simp [drawFrom]
  | seed, k + 1, x :: xs, a => by
      intro h
      simp only [drawFrom, List.mem_cons] at h
      rcases h with h | h
      · rw [h]
        exact List.get_mem _ _ _
      · exact (List.eraseIdx_sublist (x :: xs) (seed % (x :: xs).length)).subset
          (drawFrom_subset (lcg seed) k _ a h)

theorem mkRat_half : (mkRat 1 2 : ℚ) = 1 / 2 := by
  rw [Rat.mkRat_eq_div]
  norm_num

theorem clampFrac_eq (p : ℤ) :
    clampFrac p = max (1 / 100) (min (1 / 2) ((p : ℚ) / 100)) := by
  rw [clampFrac, qmax_eq, qmin_eq, Rat.mkRat_eq_div, Rat.mkRat_eq_div, Rat.mkRat_eq_div]
  norm_num

theorem clampFrac_le_half (p : ℤ) : clampFrac p ≤ 1 / 2 := by
  rw [clampFrac_eq]
  exact max_le (by norm_num) (min_le_left _ _)

theorem clampFrac_nonneg (p : ℤ) : 0 ≤ clampFrac p := by
  rw [clampFrac_eq]
  exact le_trans (by norm_num) (le_max_left _ _)

theorem pyRound_eq_floor_or (q : ℚ) : pyRound q = ⌊q⌋ ∨ pyRound q = ⌊q⌋ + 1 := by
  simp only [pyRound, ratFloor_eq]
  split_ifs <;> simp

theorem pyRound_nonneg (q : ℚ) (h : 0 ≤ q) : 0 ≤ pyRound q := by
  have hf := Int.floor_nonneg.mpr h
  rcases pyRound_eq_floor_or q with h1 | h1 <;> rw [h1] <;> omega

theorem pyRound_le (q : ℚ) (n : ℕ) (h0 : 0 ≤ q) (h : q ≤ (n : ℚ) / 2) :
    pyRound q ≤ n := by
  have hA : ⌊q⌋ ≤ (n : ℤ) := by
    have h1 : q ≤ (n : ℚ) := le_trans h (half_le_self (by positivity))
    have := Int.floor_le_floor h1
    rwa [Int.floor_natCast] at this
  have hB : ¬qlt (qsubInt q (ratFloor q)) (mkRat 1 2) = true → ⌊q⌋ + 1 ≤ (n : ℤ) := by
    intro hr
    rw [qlt_iff, ratFloor_eq, qsubInt_eq, mkRat_half, not_lt] at hr
    have hfl : 0 ≤ (⌊q⌋ : ℚ) := by
      exact_mod_cast Int.floor_nonneg.mpr h0
    have hq12 : (1 : ℚ) / 2 ≤ q := by
      have := add_le_add hfl hr
      simpa using this
    have hn1 : (1 : ℚ) ≤ (n : ℚ) := by
      have := le_trans hq12 h
      rw [div_le_div_iff₀ (by norm_num) (by norm_num)] at this
      linarith
    have hn0 : (0 : ℚ) < (n : ℚ) := lt_of_lt_of_le (by norm_num) hn1
    have hqn : q < (n : ℚ) := lt_of_le_of_lt h (half_lt_self hn0)
    have : ⌊q⌋ < (n : ℤ) := Int.floor_lt.mpr (by exact_mod_cast hqn)
    omega
  simp only [pyRound, ratFloor_eq]
  split_ifs with h1 h2 h3
  · exact hA
  · exact hB (by simpa [ratFloor_eq] using h1)
  · exact hA
  · exact hB (by simpa [ratFloor_eq] using h1)

/-- The row count `pandasSample` draws, identified with the spec's formula. -/
theorem pandasSample_length (rs : Option Nat) (ambient : Nat) (p : ℤ)
    (rows : List (List Cell)) :
    (pandasSample rs ambient (clampFrac p) rows).length
      = (pyRound (clampFrac p * (rows.length : ℚ))).toNat := by
  rw [pandasSample, drawFrom_length]
  have hbridge : qmul (clampFrac p) (mkRat (rows.length : ℤ) 1)
      = clampFrac p * (rows.length : ℚ) := by
    rw [qmul_eq, Rat.mkRat_one]
    push_cast
    ring
  rw [hbridge]
  have hq0 : 0 ≤ clampFrac p * (rows.length : ℚ) :=
    mul_nonneg (clampFrac_nonneg p) (by positivity)
  have hle : clampFrac p * (rows.length : ℚ) ≤ (rows.length : ℚ) / 2 := by
    have := mul_le_mul_of_nonneg_right (clampFrac_le_half p)
      (show (0 : ℚ) ≤ (rows.length : ℚ) by positivity)
    linarith
  have hk : (pyRound (clampFrac p * (rows.length : ℚ))).toNat ≤ rows.length :=
    Int.toNat_le.mpr (pyRound_le _ _ hq0 hle)
  omega

/-- **C1.** For every uploaded (non-fallback) table with `n` rows and every
requested integer percentage `P`, `load` returns a sampled table with exactly
`round(clamp(P/100, 0.01, 0.50) * n)` rows (Python's rounding), and an empty
table — not an error — when `n = 0`; `P = 200` clamps to fraction `1/2` and
`P = 0` clamps to `1/100`. -/
theorem c1_sampler_row_count (file : SrcFile) (ambient : Nat) (pct : ℤ) (f0 : Frame)
    (h : read_uploaded_file file = .ok f0) :
    ∃ df : Frame,
      load_small_sample ambient (some file) pct false = .ok df ∧
      (df.rows.length : ℤ) = pyRound (clampFrac pct * (f0.rows.length : ℚ)) ∧
      (f0.rows.length = 0 → df.rows = []) ∧
      clampFrac 200 = 1 / 2 ∧ clampFrac 0 = 1 / 100 := by
  have hload : load_small_sample ambient (some file) pct false =
      .ok { cols := f0.cols,
            rows := pandasSample (some 42) ambient (clampFrac pct) f0.rows } := by
    simp [load_small_sample, h]
  refine ⟨_, hload, ?_, ?_, ?_, ?_⟩
  · rw [pandasSample_length]
    exact Int.toNat_of_nonneg (pyRound_nonneg _
      (mul_nonneg (clampFrac_nonneg pct) (by positivity)))
  · intro h0
    rw [List.length_eq_zero] at h0
    rw [pandasSample, h0, drawFrom_nil]
  · rw [clampFrac_eq]
    norm_num
  · rw [clampFrac_eq]
    norm_num

theorem c1_sampler_row_count_witness :
    (read_uploaded_file fileW = .ok frameW) ∧
    (∃ df : Frame,
      load_small_sample 0 (some fileW) 50 false = .ok df ∧
      (df.rows.length : ℤ) = pyRound (clampFrac 50 * (frameW.rows.length : ℚ)) ∧
      (frameW.rows.length = 0 → df.rows = []) ∧
      clampFrac 200 = 1 / 2 ∧ clampFrac 0 = 1 / 100) :=
  ⟨by decide, c1_sampler_row_count fileW 0 50 frameW (by decide)⟩

/-! ## Claim C2: determinism of the sampler -/
/-- **C2.** The load operation is deterministic: two runs whose ambient
random-generator states differ arbitrarily return identical frames — rows
and order included — on identical `(upload, percentage, builtin-flag)`
inputs, because the sampler is seeded with the fixed `random_state=42`; the
whole script run is likewise identical. -/
theorem c2_sampler_deterministic (a1 a2 : Nat) (uploaded : Option SrcFile)
    (pct : ℤ) (b : Bool) :
    load_small_sample a1 uploaded pct b = load_small_sample a2 uploaded pct b ∧
    runApp a1 uploaded pct = runApp a2 uploaded pct :=
  ⟨rfl, rfl⟩

/-! ## Claim C3: the fallback bypasses sampling -/
/-- **C3.** With no uploaded file the script loads with `use_builtin = true`
and `load` returns the built-in fallback dataset whole and unchanged — 16
rows — for every requested percentage; sampling is bypassed entirely. -/
theorem c3_fallback_whole (ambient : Nat) (uploaded : Option SrcFile) (pct : ℤ) :
    load_small_sample ambient uploaded pct true = .ok SAMPLE_CSV ∧
    load_small_sample ambient none pct (none : Option SrcFile).isNone = .ok SAMPLE_CSV ∧
    SAMPLE_CSV.rows.length = 16 :=
  ⟨rfl, rfl, rfl⟩

/-! ## Lemmas about coercion, and claim C8 -/
theorem toNumeric_idem (c : Cell) : toNumeric (toNumeric c) = toNumeric c := by
  cases c with
  | num q => rfl
  | missing => rfl
  | date y m d => rfl
  | text s =>
      cases h : parseNumStr s with
      | none => simp [toNumeric, h]
      | some q => simp [toNumeric, h]

theorem updateAt_nil (i : Nat) (g : Cell → Cell) : updateAt i g [] = [] := by
  cases i <;> rfl

theorem updateAt_same (g h : Cell → Cell) :
    ∀ (i : Nat) (r : List Cell),
      updateAt i g (updateAt i h r) = updateAt i (fun c => g (h c)) r
  | i, [] => by rw [updateAt_nil, updateAt_nil, updateAt_nil]
  | 0, _ :: _ => rfl
  | i + 1, x :: xs => by
      show x :: updateAt i g (updateAt i h xs) = x :: updateAt i (fun c => g (h c)) xs
      rw [updateAt_same g h i xs]

theorem updateAt_comm (g h : Cell → Cell) (i j : Nat) (hij : i ≠ j) (r : List Cell) :
    updateAt i g (updateAt j h r) = updateAt j h (updateAt i g r) := by
  induction r generalizing i j with
  | nil => simp [updateAt_nil]
  | cons x xs ih =>
      match i, j with
      | 0, 0 => exact absurd rfl hij
      | 0, j + 1 => rfl
      | i + 1, 0 => rfl
      | i + 1, j + 1 =>
          show x :: updateAt i g (updateAt j h xs) = x :: updateAt j h (updateAt i g xs)
          rw [ih i j (fun h2 => hij (by rw [h2]))]

theorem frameExt (a b : Frame) (h1 : a.cols = b.cols) (h2 : a.rows = b.rows) : a = b := by
  cases a
  cases b
  cases h1
  cases h2
  rfl

theorem coerceCol_eq_neg (c : String) (f : Frame) (hc : ¬f.cols.contains c = true) :
    coerceCol c f = f := by
  rw [coerceCol, if_neg hc]

theorem coerceCol_cols (c : String) (f : Frame) : (coerceCol c f).cols = f.cols := by
  rw [coerceCol]
  split <;> rfl

theorem coerceCol_rows_pos (c : String) (f : Frame) (hc : f.cols.contains c = true) :
    (coerceCol c f).rows = f.rows.map (updateAt (colIdx c f.cols) toNumeric) := by
  rw [coerceCol, if_pos hc]

theorem colIdx_lt_length (c : String) : ∀ (l : List String), c ∈ l → colIdx c l < l.length := by
  intro l
  induction l with
  | nil => intro h; simp at h
  | cons x xs ih =>
      intro h
      rw [colIdx]
      by_cases hx : x = c
      · rw [if_pos hx]
        simp
      · rw [if_neg hx]
        have hc : c ∈ xs := by
          rcases List.mem_cons.mp h with h1 | h1
          · exact absurd h1.symm hx
          · exact h1
        simpa using ih hc

theorem colIdx_getD (c : String) : ∀ (l : List String), c ∈ l → l.getD (colIdx c l) "" = c := by
  intro l
  induction l with
  | nil => intro h; simp at h
  | cons x xs ih =>
      intro h
      rw [colIdx]
      by_cases hx : x = c
      · rw [if_pos hx]
        simpa using hx
      · rw [if_neg hx]
        have hc : c ∈ xs := by
          rcases List.mem_cons.mp h with h1 | h1
          · exact absurd h1.symm hx
          · exact h1
        simpa [List.getD] using ih hc

theorem colIdx_inj (c c2 : String) (l : List String) (hc : c ∈ l) (hc2 : c2 ∈ l)
    (hne : c ≠ c2) : colIdx c l ≠ colIdx c2 l := by
  intro heq
  apply hne
  have h1 := colIdx_getD c l hc
  have h2 := colIdx_getD c2 l hc2
  rw [heq] at h1
  rw [← h1, h2]

theorem coerceCol_idem (c : String) (f : Frame) :
    coerceCol c (coerceCol c f) = coerceCol c f := by
  by_cases hc : f.cols.contains c = true
  · apply frameExt
    · rw [coerceCol_cols, coerceCol_cols]
    · have hc2 : (coerceCol c f).cols.contains c = true := by
        rw [coerceCol_cols]
        exact hc
      rw [coerceCol_rows_pos c (coerceCol c f) hc2, coerceCol_cols,
        coerceCol_rows_pos c f hc, List.map_map]
      apply List.map_congr_left
      intro r _
      show updateAt (colIdx c f.cols) toNumeric (updateAt (colIdx c f.cols) toNumeric r)
          = updateAt (colIdx c f.cols) toNumeric r
      rw [updateAt_same]
      congr 1
      funext x
      exact toNumeric_idem x
  · rw [coerceCol_eq_neg c f hc, coerceCol_eq_neg c f hc]

theorem coerceCol_comm (c c2 : String) (hne : c ≠ c2) (f : Frame) :
    coerceCol c (coerceCol c2 f) = coerceCol c2 (coerceCol c f) := by
  by_cases h1 : f.cols.contains c = true <;> by_cases h2 : f.cols.contains c2 = true
  · apply frameExt
    · rw [coerceCol_cols, coerceCol_cols, coerceCol_cols, coerceCol_cols]
    · have h1b : (coerceCol c2 f).cols.contains c = true := by
        rw [coerceCol_cols]; exact h1
      have h2b : (coerceCol c f).cols.contains c2 = true := by
        rw [coerceCol_cols]; exact h2
      rw [coerceCol_rows_pos c (coerceCol c2 f) h1b, coerceCol_cols,
        coerceCol_rows_pos c2 f h2,
        coerceCol_rows_pos c2 (coerceCol c f) h2b, coerceCol_cols,
        coerceCol_rows_pos c f h1, List.map_map, List.map_map]
      have hmemc : c ∈ f.cols := by rwa [List.contains, List.elem_iff] at h1
      have hmemc2 : c2 ∈ f.cols := by rwa [List.contains, List.elem_iff] at h2
      have hij := colIdx_inj c c2 f.cols hmemc hmemc2 hne
      apply List.map_congr_left
      intro r _
      exact updateAt_comm _ _ _ _ hij r
  · have h2b : ¬(coerceCol c f).cols.contains c2 = true := by
      rw [coerceCol_cols]; exact h2
    rw [coerceCol_eq_neg c2 f h2, coerceCol_eq_neg c2 _ h2b]
  · have h1b : ¬(coerceCol c2 f).cols.contains c = true := by
      rw [coerceCol_cols]; exact h1
    rw [coerceCol_eq_neg c _ h1b, coerceCol_eq_neg c f h1]
  · rw [coerceCol_eq_neg c2 f h2, coerceCol_eq_neg c f h1, coerceCol_eq_neg c2 f h2]

theorem coerceFrame_eq_fold (f : Frame) : coerceFrame f = coerceFold numericCols f := rfl

theorem coerceCol_fold_comm (c : String) :
    ∀ (cs : List String), c ∉ cs → ∀ f,
      coerceCol c (coerceFold cs f) = coerceFold cs (coerceCol c f) := by
  intro cs
  induction cs with
  | nil => intro _ f; rfl
  | cons c2 cs ih =>
      intro hc f
      have hne : c ≠ c2 := fun h => hc (h ▸ List.mem_cons_self c2 cs)
      have hnotin : c ∉ cs := fun h => hc (List.mem_cons_of_mem _ h)
      show coerceCol c (coerceFold cs (coerceCol c2 f))
          = coerceFold cs (coerceCol c2 (coerceCol c f))
      rw [ih hnotin (coerceCol c2 f), coerceCol_comm c c2 hne f]

theorem coerceFold_idem :
    ∀ (cs : List String), cs.Nodup → ∀ f,
      coerceFold cs (coerceFold cs f) = coerceFold cs f := by
  intro cs
  induction cs with
  | nil => intro _ f; rfl
  | cons c cs ih =>
      intro hnd f
      have hcn : c ∉ cs := (List.nodup_cons.mp hnd).1
      have hnd2 : cs.Nodup := (List.nodup_cons.mp hnd).2
      show coerceFold cs (coerceCol c (coerceFold cs (coerceCol c f)))
          = coerceFold cs (coerceCol c f)
      rw [coerceCol_fold_comm c cs hcn, coerceCol_idem, ih hnd2]

/-- Idempotence of the whole coercion loop (shared helper). -/
theorem coerce_idem (f : Frame) : coerceFrame (coerceFrame f) = coerceFrame f := by
  rw [coerceFrame_eq_fold, coerceFrame_eq_fold]
  exact coerceFold_idem numericCols (by decide) f

/-- **C8.** Numeric coercion is idempotent: applying the coercion loop (the
four count columns coerced to numeric, failures becoming missing) to an
already-coerced frame changes nothing, and the per-cell coercion is itself
idempotent. -/
theorem c8_coercion_idempotent (f : Frame) :
    coerceFrame (coerceFrame f) = coerceFrame f ∧
    ∀ c : Cell, toNumeric (toNumeric c) = toNumeric c :=
  ⟨coerce_idem f, toNumeric_idem⟩

/-! ## Lemmas about the aggregation, and claims C5, C10 -/
/-- `total_cases` with its `let`s spelled out. -/
theorem total_cases_eq (df : Frame) :
    total_cases df =
      (((df.rows.map (fun r => r.getD (colIdx "Country" df.cols) Cell.missing)).filter
        (fun c => c ≠ Cell.missing)).dedup).map (fun k =>
          (k, pyInt ((cellsMax ((df.rows.filter
              (fun r => r.getD (colIdx "Country" df.cols) Cell.missing = k)).map
            (fun r => r.getD (colIdx "Cumulative_cases" df.cols) Cell.missing))).getD 0))) :=
  rfl

theorem total_cases_fst (df : Frame) :
    (total_cases df).map Prod.fst =
      ((df.rows.map (fun r => r.getD (colIdx "Country" df.cols) Cell.missing)).filter
        (fun c => c ≠ Cell.missing)).dedup := by
  rw [total_cases_eq, List.map_map]
  exact List.map_id _

theorem cellsMax_nonneg :
    ∀ (cells : List Cell), (∀ q : ℚ, Cell.num q ∈ cells → 0 ≤ q) →
      ∀ m : ℚ, cellsMax cells = some m → 0 ≤ m := by
  intro cells
  induction cells with
  | nil => intro _ m h; simp [cellsMax] at h
  | cons c cs ih =>
      intro hq m hm
      have hqcs : ∀ q : ℚ, Cell.num q ∈ cs → 0 ≤ q := fun q hmem =>
        hq q (List.mem_cons_of_mem _ hmem)
      cases c with
      | num q =>
          have hq0 : 0 ≤ q := hq q (List.mem_cons_self _ _)
          cases hrest : cellsMax cs with
          | none =>
              simp only [cellsMax, hrest] at hm
              injection hm with h
              rw [← h]
              exact hq0
          | some m2 =>
              simp only [cellsMax, hrest] at hm
              injection hm with h
              rw [← h, qmax_eq]
              exact le_max_of_le_left hq0
      | text s =>
          simp only [cellsMax] at hm
          exact ih hqcs m hm
      | date y mo d =>
          simp only [cellsMax] at hm
          exact ih hqcs m hm
      | missing =>
          simp only [cellsMax] at hm
          exact ih hqcs m hm

theorem pyInt_nonneg (q : ℚ) (h : 0 ≤ q) : 0 ≤ pyInt q := by
  rw [pyInt, if_neg (by simp only [qlt_iff]; exact not_lt.mpr h), ratFloor_eq]
  exact Int.floor_nonneg.mpr h

/-- **C5.** On any frame carrying `Country` and `Cumulative_cases`, the
top-countries aggregate has at most 10 rows, is sorted non-increasing by the
aggregated value, has pairwise-distinct country keys, the sorted aggregate
is a permutation of the full per-country aggregate, and the full aggregate
has exactly one row per distinct non-missing country value of the input. -/
theorem c5_aggregate_shape (df : Frame)
    (hk : "Country" ∈ df.cols) (hv : "Cumulative_cases" ∈ df.cols) :
    (top df).length ≤ 10 ∧
    List.Sorted aggLE (top df) ∧
    ((top df).map Prod.fst).Nodup ∧
    (List.insertionSort aggLE (total_cases df)).Perm (total_cases df) ∧
    (∀ k : Cell,
      k ∈ (total_cases df).map Prod.fst ↔
        (k ∈ df.rows.map (fun r => r.getD (colIdx "Country" df.cols) Cell.missing) ∧
          k ≠ Cell.missing)) := by
  have hperm := List.perm_insertionSort aggLE (total_cases df)
  have htop : top df = (List.insertionSort aggLE (total_cases df)).take 10 := rfl
  refine ⟨?_, ?_, ?_, hperm, ?_⟩
  · rw [htop]
    exact List.length_take_le 10 _
  · exact List.Pairwise.sublist (List.take_sublist _ _)
      (List.sorted_insertionSort aggLE (total_cases df))
  · have hkeys : ((total_cases df).map Prod.fst).Nodup := by
      rw [total_cases_fst]
      exact List.nodup_dedup _
    have hsorted : ((List.insertionSort aggLE (total_cases df)).map Prod.fst).Nodup :=
      ((hperm.map Prod.fst).nodup_iff).mpr hkeys
    rw [htop, List.map_take]
    exact List.Nodup.sublist (List.take_sublist _ _) hsorted
  · intro k
    rw [total_cases_fst, List.mem_dedup, List.mem_filter]
    simp

theorem c5_aggregate_shape_witness :
    ("Country" ∈ aggW.cols ∧ "Cumulative_cases" ∈ aggW.cols) ∧
    ((top aggW).length ≤ 10 ∧
      List.Sorted aggLE (top aggW) ∧
      ((top aggW).map Prod.fst).Nodup ∧
      (List.insertionSort aggLE (total_cases aggW)).Perm (total_cases aggW) ∧
      (∀ k : Cell,
        k ∈ (total_cases aggW).map Prod.fst ↔
          (k ∈ aggW.rows.map (fun r => r.getD (colIdx "Country" aggW.cols) Cell.missing) ∧
            k ≠ Cell.missing))) :=
  ⟨⟨by decide, by decide⟩, c5_aggregate_shape aggW (by decide) (by decide)⟩

/-- **C10 counterexample.** The claim says every aggregate value is a
non-negative integer for every input frame carrying `Cumulative_cases`; on a
frame holding the value `-1` for country `A`, the aggregate reports `-1`. -/
theorem c10_cex :
    "Cumulative_cases" ∈ negFrame.cols ∧
    top negFrame = [(.text "A", -1)] ∧
    ¬∀ v ∈ (top negFrame).map Prod.snd, 0 ≤ v := by
  refine ⟨by decide, by decide, ?_⟩
  intro h
  have := h (-1) (by decide)
  omega

/-- **C10 amended.** Aggregate values are integers by construction
(`astype(int)`); they are non-negative whenever every present
`Cumulative_cases` value of the input is non-negative; and a country all of
whose `Cumulative_cases` cells are missing still appears in the full
aggregate with value 0 rather than being dropped. -/
theorem c10_amended (df : Frame)
    (hnneg : ∀ r ∈ df.rows, ∀ q : ℚ,
      r.getD (colIdx "Cumulative_cases" df.cols) Cell.missing = Cell.num q → 0 ≤ q) :
    (∀ v ∈ (top df).map Prod.snd, 0 ≤ v) ∧
    (∀ k : Cell, k ∈ (total_cases df).map Prod.fst →
      cellsMax ((df.rows.filter
          (fun r => r.getD (colIdx "Country" df.cols) Cell.missing = k)).map
        (fun r => r.getD (colIdx "Cumulative_cases" df.cols) Cell.missing)) = none →
      (k, 0) ∈ total_cases df) := by
  have hcellbound : ∀ k : Cell, ∀ q : ℚ,
      Cell.num q ∈ (df.rows.filter
          (fun r => r.getD (colIdx "Country" df.cols) Cell.missing = k)).map
        (fun r => r.getD (colIdx "Cumulative_cases" df.cols) Cell.missing) → 0 ≤ q := by
    intro k q hq
    rw [List.mem_map] at hq
    obtain ⟨r, hr, hcell⟩ := hq
    exact hnneg r (List.mem_filter.mp hr).1 q hcell
  constructor
  · intro v hv
    have h1 : v ∈ (total_cases df).map Prod.snd := by
      have hsub : List.Sublist ((top df).map Prod.snd)
          ((List.insertionSort aggLE (total_cases df)).map Prod.snd) :=
        (List.take_sublist _ _).map Prod.snd
      exact ((List.perm_insertionSort aggLE (total_cases df)).map Prod.snd).mem_iff.mp
        (hsub.subset hv)
    rw [total_cases_eq, List.map_map] at h1
    simp only [List.mem_map, Function.comp] at h1
    obtain ⟨k, hk, hv2⟩ := h1
    rw [← hv2]
    cases hmax : cellsMax ((df.rows.filter
        (fun r => r.getD (colIdx "Country" df.cols) Cell.missing = k)).map
      (fun r => r.getD (colIdx "Cumulative_cases" df.cols) Cell.missing)) with
    | none => decide
    | some m => exact pyInt_nonneg m (cellsMax_nonneg _ (hcellbound k) m hmax)
  · intro k hk hmax
    rw [total_cases_fst] at hk
    rw [total_cases_eq, List.mem_map]
    refine ⟨k, hk, ?_⟩
    rw [hmax]
    have h0 : pyInt ((none : Option ℚ).getD 0) = 0 := by decide
    rw [h0]

/-- **C7.** Uploading a file whose columns lack a required column makes
`read_uploaded_file` fail with `FormatError`, `load` propagate that error
(no frame is produced), and the script halt with the single user-visible
"could not load data" message — no partial table is shown. -/
theorem c7_missing_column (file : SrcFile) (ambient : Nat) (pct : ℤ)
    (h : ∃ c ∈ use_cols, c ∉ file.header) :
    read_uploaded_file file = .error .formatError ∧
    load_small_sample ambient (some file) pct false = .error .formatError ∧
    runApp ambient (some file) pct = .halted loadErrorMsg := by
  have hcond : ¬(use_cols.all (fun c => file.header.contains c) = true) := by
    intro hall
    obtain ⟨c, hc, hnot⟩ := h
    exact hnot (by
      have := List.all_eq_true.mp hall c hc
      rwa [List.contains, List.elem_iff] at this)
  have hread : read_uploaded_file file = .error .formatError := by
    rw [read_uploaded_file, if_neg hcond]
  have hload : load_small_sample ambient (some file) pct false = .error .formatError := by
    simp [load_small_sample, hread]
  refine ⟨hread, hload, ?_⟩
  have : (some file : Option SrcFile).isNone = false := rfl
  rw [runApp]
  simp only [this, hload]

theorem c7_missing_column_witness :
    (∃ c ∈ use_cols, c ∉ fileNoCountry.header) ∧
    (read_uploaded_file fileNoCountry = .error .formatError ∧
      load_small_sample 0 (some fileNoCountry) 5 false = .error .formatError ∧
      runApp 0 (some fileNoCountry) 5 = .halted loadErrorMsg) :=
  ⟨by decide, c7_missing_column fileNoCountry 0 5 (by decide)⟩

/-! ## Claims C4 and C9 -/
/-- Inversion of a successful upload load: the file was read and the frame
is the sampled projection. -/
theorem load_upload_inv (ambient : Nat) (file : SrcFile) (pct : ℤ) (df : Frame)
    (h : load_small_sample ambient (some file) pct false = .ok df) :
    ∃ df_full : Frame, read_uploaded_file file = .ok df_full ∧
      df.cols = df_full.cols ∧
      df.rows = pandasSample (some 42) ambient (clampFrac pct) df_full.rows := by
  cases hr : read_uploaded_file file with
  | error e => simp [load_small_sample, hr] at h
  | ok df_full =>
      have he : load_small_sample ambient (some file) pct false =
          .ok { cols := df_full.cols,
                rows := pandasSample (some 42) ambient (clampFrac pct) df_full.rows } := by
        simp [load_small_sample, hr]
      rw [he] at h
      injection h with h2
      exact ⟨df_full, rfl, by rw [← h2], by rw [← h2]⟩

/-- Inversion of a successful read: all required columns were present and
the frame is the in-file-order projection to `use_cols`. -/
theorem read_ok_inv (file : SrcFile) (f0 : Frame)
    (h : read_uploaded_file file = .ok f0) :
    use_cols.all (fun c => file.header.contains c) = true ∧
    f0.cols = file.header.filter (fun c => use_cols.contains c) ∧
    f0.rows = file.rows.map (fun r =>
      ((file.header.zip r).filter (fun p => use_cols.contains p.1)).map Prod.snd) := by
  by_cases hc : use_cols.all (fun c => file.header.contains c) = true
  · rw [read_uploaded_file, if_pos hc] at h
    injection h with h2
    exact ⟨hc, by rw [← h2], by rw [← h2]⟩
  · rw [read_uploaded_file, if_neg hc] at h
    simp at h

/-- **C4 counterexample.** The claim says every frame `load` produces —
the fallback path included — carries exactly the seven Row-Schema columns
in schema order; but with no upload the fallback frame is returned with
eight columns (`Country_code` included). -/
theorem c4_cex :
    load_small_sample 0 none 5 true = .ok SAMPLE_CSV ∧
    SAMPLE_CSV.cols ≠ use_cols ∧
    SAMPLE_CSV.cols.length = 8 :=
  ⟨rfl, by decide, rfl⟩

/-- **C4 amended.** A successful upload load produces a frame whose columns
are exactly the seven `use_cols` as a set — seven columns whenever the
file's header has no duplicates — ordered as in the uploaded file (pandas
ignores `usecols` order), not necessarily in schema order; the fallback
frame instead carries eight columns, the seven plus `Country_code`. -/
theorem c4_amended (ambient : Nat) (file : SrcFile) (pct : ℤ) (df : Frame)
    (hnd : file.header.Nodup)
    (h : load_small_sample ambient (some file) pct false = .ok df) :
    df.cols = file.header.filter (fun c => use_cols.contains c) ∧
    (∀ c : String, c ∈ df.cols ↔ (c ∈ use_cols ∧ c ∈ file.header)) ∧
    df.cols.length = 7 ∧
    SAMPLE_CSV.cols = ["Date_reported", "Country_code", "Country", "WHO_region",
      "New_cases", "Cumulative_cases", "New_deaths", "Cumulative_deaths"] := by
  obtain ⟨df_full, hr, hcols, _⟩ := load_upload_inv ambient file pct df h
  obtain ⟨hall, hc0, _⟩ := read_ok_inv file df_full hr
  have hcols2 : df.cols = file.header.filter (fun c => use_cols.contains c) := by
    rw [hcols, hc0]
  have hmem : ∀ c : String, c ∈ df.cols ↔ (c ∈ use_cols ∧ c ∈ file.header) := by
    intro c
    rw [hcols2, List.mem_filter]
    constructor
    · rintro ⟨h1, h2⟩
      rw [List.contains, List.elem_iff] at h2
      exact ⟨h2, h1⟩
    · rintro ⟨h1, h2⟩
      refine ⟨h2, ?_⟩
      rw [List.contains, List.elem_iff]
      exact h1
  refine ⟨hcols2, hmem, ?_, rfl⟩
  have hnd2 : df.cols.Nodup := by
    rw [hcols2]
    exact List.Nodup.filter _ hnd
  have hsub : ∀ c, c ∈ df.cols ↔ c ∈ use_cols := by
    intro c
    rw [hmem c]
    constructor
    · exact And.left
    · intro hcu
      refine ⟨hcu, ?_⟩
      have := List.all_eq_true.mp hall c hcu
      rwa [List.contains, List.elem_iff] at this
  have hndu : use_cols.Nodup := by decide
  have hperm : df.cols.Perm use_cols :=
    (List.perm_ext_iff_of_nodup hnd2 hndu).mpr hsub
  rw [hperm.length_eq]
  rfl

theorem c4_amended_witness :
    (fileRev.header.Nodup ∧
      load_small_sample 0 (some fileRev) 5 false = .ok frameRev) ∧
    (frameRev.cols = fileRev.header.filter (fun c => use_cols.contains c) ∧
      (∀ c : String, c ∈ frameRev.cols ↔ (c ∈ use_cols ∧ c ∈ fileRev.header)) ∧
      frameRev.cols.length = 7 ∧
      SAMPLE_CSV.cols = ["Date_reported", "Country_code", "Country", "WHO_region",
        "New_cases", "Cumulative_cases", "New_deaths", "Cumulative_deaths"]) :=
  ⟨⟨by decide, by decide⟩, c4_amended 0 fileRev 5 frameRev (by decide) (by decide)⟩

/-- **C9 amended.** In every load interaction the coercion loop runs exactly
once, after sampling and after the raw preview, before aggregation and
export: the preview shows the first ten rows of the raw sampled frame, while
the aggregate and all three payloads are computed from the coerced frame
(running the loop again would change nothing); and every sampled row is a
row of the raw projected upload, so coercion never affects which rows are
selected. -/
theorem c9_amended (ambient : Nat) (uploaded : Option SrcFile) (pct : ℤ) (df : Frame)
    (h : load_small_sample ambient uploaded pct uploaded.isNone = .ok df) :
    runApp ambient uploaded pct =
      .shown (frameHead 10 df)
        (if (coerceFrame df).cols.contains "Cumulative_cases" then
          some (top (coerceFrame df)) else none)
        (csv_bytes (to_download (coerceFrame df)))
        (tsv_bytes (to_download (coerceFrame df)))
        (make_excel_bytes (to_download (coerceFrame df))) ∧
    coerceFrame (coerceFrame df) = coerceFrame df ∧
    (∀ file f0, uploaded = some file → read_uploaded_file file = .ok f0 →
      ∀ r ∈ df.rows, r ∈ f0.rows) := by
  refine ⟨?_, coerce_idem df, ?_⟩
  · rw [runApp, h]
  · intro file f0 hup hread r hr
    subst hup
    obtain ⟨df_full, hr2, _, hrows⟩ :=
      load_upload_inv ambient file pct df (by simpa using h)
    rw [hr2] at hread
    injection hread with hf
    rw [hrows] at hr
    rw [← hf]
    exact drawFrom_subset _ _ _ r hr

theorem c9_amended_witness :
    (load_small_sample 0 none 5 (none : Option SrcFile).isNone = .ok SAMPLE_CSV) ∧
    (runApp 0 none 5 =
      .shown (frameHead 10 SAMPLE_CSV)
        (if (coerceFrame SAMPLE_CSV).cols.contains "Cumulative_cases" then
          some (top (coerceFrame SAMPLE_CSV)) else none)
        (csv_bytes (to_download (coerceFrame SAMPLE_CSV)))
        (tsv_bytes (to_download (coerceFrame SAMPLE_CSV)))
        (make_excel_bytes (to_download (coerceFrame SAMPLE_CSV))) ∧
      coerceFrame (coerceFrame SAMPLE_CSV) = coerceFrame SAMPLE_CSV ∧
      (∀ file f0, (none : Option SrcFile) = some file →
        read_uploaded_file file = .ok f0 → ∀ r ∈ SAMPLE_CSV.rows, r ∈ f0.rows)) :=
  ⟨rfl, c9_amended 0 none 5 SAMPLE_CSV rfl⟩

/-- **C9 counterexample.** The claim places coercion before the preview; in
the script the preview is rendered from the raw sampled frame before the
coercion loop runs, so on an upload whose `New_cases` holds the non-numeric
text `"x"` the shown preview differs from the head of the coerced frame. -/
theorem c9_cex :
    load_small_sample 0 (some fileRaw) 50 false = .ok frameRaw ∧
    previewOf (runApp 0 (some fileRaw) 50) = some (frameHead 10 frameRaw) ∧
    previewOf (runApp 0 (some fileRaw) 50) ≠ some (frameHead 10 (coerceFrame frameRaw)) :=
  ⟨by decide, by decide, by decide⟩

theorem scanState_nil (inQ : Bool) : scanState inQ [] = inQ := rfl

theorem cleanFor_nil (stop : Char) (inQ : Bool) : cleanFor stop inQ [] = true := rfl

theorem scanState_cons (inQ : Bool) (c : Char) (cs : List Char) :
    scanState inQ (c :: cs) = scanState (flipQ inQ c) cs := rfl

theorem cleanFor_cons (stop : Char) (inQ : Bool) (c : Char) (cs : List Char) :
    cleanFor stop inQ (c :: cs)
      = (!(c = stop && !inQ) && cleanFor stop (flipQ inQ c) cs) := rfl

theorem splitQ_cons (stop : Char) (inQ : Bool) (c : Char) (cs : List Char) :
    splitQ stop inQ (c :: cs)
      = if c = stop && !inQ then [] :: splitQ stop inQ cs
        else consHd c (splitQ stop (flipQ inQ c) cs) := rfl

theorem dupQuotes_cons (c : Char) (cs : List Char) :
    dupQuotes (c :: cs)
      = if c = '"' then '"' :: '"' :: dupQuotes cs else c :: dupQuotes cs := rfl

theorem undup_cons2 (c d : Char) (cs : List Char) :
    undup (c :: d :: cs)
      = if c = '"' then
          (if d = '"' then '"' :: undup cs else c :: undup (d :: cs))
        else c :: undup (d :: cs) := rfl

theorem unescapeField_cons (c : Char) (rest : List Char) :
    unescapeField (c :: rest)
      = if c = '"' then undup rest.dropLast else c :: rest := rfl

theorem scanState_append : ∀ (a b : List Char) (inQ : Bool),
    scanState inQ (a ++ b) = scanState (scanState inQ a) b
  | [], _, _ => rfl
  | c :: cs, b, inQ => by
      rw [List.cons_append, scanState_cons, scanState_cons]
      exact scanState_append cs b (flipQ inQ c)

theorem cleanFor_append (stop : Char) : ∀ (a b : List Char) (inQ : Bool),
    cleanFor stop inQ (a ++ b)
      = (cleanFor stop inQ a && cleanFor stop (scanState inQ a) b)
  | [], b, inQ => by simp [cleanFor, scanState]
  | c :: cs, b, inQ => by
      rw [List.cons_append, cleanFor_cons, cleanFor_cons, scanState_cons,
        cleanFor_append stop cs b (flipQ inQ c), Bool.and_assoc]

theorem splitQ_append_chunk (stop : Char) :
    ∀ (x : List Char) (inQ : Bool) (rest f : List Char) (fs : List (List Char)),
      cleanFor stop inQ x = true →
      splitQ stop (scanState inQ x) rest = f :: fs →
      splitQ stop inQ (x ++ rest) = (x ++ f) :: fs := by
  intro x
  induction x with
  | nil =>
      intro inQ rest f fs _ hrest
      simpa using hrest
  | cons c cs ih =>
      intro inQ rest f fs hclean hrest
      rw [cleanFor_cons, Bool.and_eq_true] at hclean
      obtain ⟨hA, hB⟩ := hclean
      rw [Bool.not_eq_true'] at hA
      rw [List.cons_append, splitQ_cons, if_neg (by rw [hA]; exact Bool.false_ne_true)]
      rw [scanState_cons] at hrest
      rw [ih (flipQ inQ c) rest f fs hB hrest]
      rfl

theorem no_special_clean (stop : Char) :
    ∀ (f : List Char), (∀ c ∈ f, c ≠ stop ∧ c ≠ '"') →
      cleanFor stop false f = true ∧ scanState false f = false := by
  intro f
  induction f with
  | nil => intro _; exact ⟨rfl, rfl⟩
  | cons c cs ih =>
      intro h
      obtain ⟨hcs, hcq⟩ := h c (List.mem_cons_self _ _)
      have hrest := ih (fun x hx => (h x (List.mem_cons_of_mem _ hx)))
      have hflip : flipQ false c = false := by rw [flipQ, if_neg hcq]
      constructor
      · rw [cleanFor_cons, hflip, hrest.1, Bool.and_true, Bool.not_eq_true',
          Bool.and_eq_false_iff]
        left
        simpa using hcs
      · rw [scanState_cons, hflip]
        exact hrest.2

theorem dup_inside_clean (stop : Char) (hq : stop ≠ '"') :
    ∀ (f : List Char),
      cleanFor stop true (dupQuotes f) = true ∧ scanState true (dupQuotes f) = true := by
  intro f
  have hqd : decide ('"' = stop) = false := by
    simp
    exact fun h => hq h.symm
  induction f with
  | nil => exact ⟨rfl, rfl⟩
  | cons c cs ih =>
      by_cases hc : c = '"'
      · subst hc
        rw [dupQuotes_cons, if_pos rfl]
        have hf1 : flipQ true '"' = false := by rw [flipQ, if_pos rfl]; rfl
        have hf2 : flipQ false '"' = true := by rw [flipQ, if_pos rfl]; rfl
        constructor
        · rw [cleanFor_cons, hf1, cleanFor_cons, hf2, ih.1, Bool.and_true]
          simp [hqd]
        · rw [scanState_cons, hf1, scanState_cons, hf2]
          exact ih.2
      · rw [dupQuotes_cons, if_neg hc]
        have hf : flipQ true c = true := by rw [flipQ, if_neg hc]
        constructor
        · rw [cleanFor_cons, hf, ih.1, Bool.and_true]
          simp
        · rw [scanState_cons, hf]
          exact ih.2

theorem escapeField_clean (d stop : Char) (hs : stop = d ∨ stop = '\n')
    (hq : stop ≠ '"') (hd1 : d ≠ '"') (hd2 : d ≠ '\n') (f : List Char) :
    cleanFor stop false (escapeField d f) = true ∧
      scanState false (escapeField d f) = false := by
  rw [escapeField]
  by_cases hnq : needsQuote d f = true
  · rw [if_pos hnq]
    have h1 := dup_inside_clean stop hq f
    have hqd : decide ('"' = stop) = false := by
      simp
      exact fun h => hq h.symm
    have hf2 : flipQ false '"' = true := by rw [flipQ, if_pos rfl]; rfl
    have hf1 : flipQ true '"' = false := by rw [flipQ, if_pos rfl]; rfl
    constructor
    · rw [cleanFor_cons, hf2, cleanFor_append, h1.1, h1.2, Bool.true_and,
        cleanFor_cons, hf1, cleanFor_nil, Bool.and_true]
      simp [hqd]
    · rw [scanState_cons, hf2, scanState_append, h1.2, scanState_cons, hf1]
      rfl
  · rw [if_neg hnq]
    apply no_special_clean
    intro c hc
    have hfalse : needsQuote d f = false := Bool.not_eq_true _ ▸ eq_false_of_ne_true hnq
    have := List.any_eq_false.mp hfalse c hc
    rw [specialChar] at this
    simp only [Bool.or_eq_true, decide_eq_true_eq, not_or] at this
    obtain ⟨⟨h1, h2⟩, h3⟩ := this
    rcases hs with hs | hs
    · exact ⟨by rw [hs]; exact h1, h2⟩
    · exact ⟨by rw [hs]; exact h3, h2⟩

theorem writeRecord_single (d : Char) (f : List Char) :
    writeRecord d [f] = escapeField d f := rfl

theorem writeRecord_cons2 (d : Char) (f g : List Char) (fs : List (List Char)) :
    writeRecord d (f :: g :: fs) = escapeField d f ++ d :: writeRecord d (g :: fs) := rfl

theorem writeRecord_clean (d : Char) (hd1 : d ≠ '"') (hd2 : d ≠ '\n') :
    ∀ (fields : List (List Char)),
      cleanFor '\n' false (writeRecord d fields) = true ∧
        scanState false (writeRecord d fields) = false
  | [] => ⟨rfl, rfl⟩
  | [f] => by
      rw [writeRecord_single]
      exact escapeField_clean d '\n' (Or.inr rfl) (by decide) hd1 hd2 f
  | f :: g :: fs => by
      rw [writeRecord_cons2]
      have h1 := escapeField_clean d '\n' (Or.inr rfl) (by decide) hd1 hd2 f
      have h2 := writeRecord_clean d hd1 hd2 (g :: fs)
      have hfd : flipQ false d = false := by rw [flipQ, if_neg hd1]
      have hdn : decide (d = '\n') = false := by
        simp
        exact hd2
      constructor
      · rw [cleanFor_append, h1.1, h1.2, Bool.true_and, cleanFor_cons, hfd, h2.1,
          Bool.and_true]
        simp [hdn]
      · rw [scanState_append, h1.2, scanState_cons, hfd]
        exact h2.2

theorem splitQ_writeRecord (d : Char) (hd1 : d ≠ '"') (hd2 : d ≠ '\n') :
    ∀ (fields : List (List Char)), fields ≠ [] →
      splitQ d false (writeRecord d fields) = fields.map (escapeField d)
  | [], h => absurd rfl h
  | [f], _ => by
      rw [writeRecord_single]
      have h1 := escapeField_clean d d (Or.inl rfl) hd1 hd1 hd2 f
      have happ := splitQ_append_chunk d (escapeField d f) false [] [] []
        h1.1 (by rw [h1.2]; rfl)
      simpa using happ
  | f :: g :: fs, _ => by
      rw [writeRecord_cons2]
      have h1 := escapeField_clean d d (Or.inl rfl) hd1 hd1 hd2 f
      have hrec := splitQ_writeRecord d hd1 hd2 (g :: fs) (by simp)
      have hrest : splitQ d (scanState false (escapeField d f))
          (d :: writeRecord d (g :: fs)) = [] :: (g :: fs).map (escapeField d) := by
        rw [h1.2, splitQ_cons, if_pos (by simp), hrec]
      rw [splitQ_append_chunk d (escapeField d f) false _ _ _ h1.1 hrest]
      simp

theorem splitQ_writeDelim (d : Char) (hd1 : d ≠ '"') (hd2 : d ≠ '\n') :
    ∀ (g : List (List (List Char))),
      splitQ '\n' false (writeDelim d g) = g.map (writeRecord d) ++ [[]]
  | [] => by simp [writeDelim, splitQ]
  | r :: g => by
      have hr := writeRecord_clean d hd1 hd2 r
      have hrest : splitQ '\n' (scanState false (writeRecord d r))
          ('\n' :: writeDelim d g) = [] :: (g.map (writeRecord d) ++ [[]]) := by
        rw [hr.2, splitQ_cons, if_pos (by simp), splitQ_writeDelim d hd1 hd2 g]
      have hD : writeDelim d (r :: g)
          = writeRecord d r ++ ('\n' :: writeDelim d g) := by
        rw [show writeDelim d (r :: g)
            = (writeRecord d r ++ ['\n']) ++ writeDelim d g from rfl,
          List.append_assoc]
        rfl
      rw [hD, splitQ_append_chunk '\n' (writeRecord d r) false _ _ _ hr.1 hrest]
      simp

theorem undup_cons_ne (c : Char) (h : c ≠ '"') :
    ∀ (l : List Char), undup (c :: l) = c :: undup l
  | [] => rfl
  | d :: cs => by rw [undup_cons2, if_neg h]

theorem undup_dupQuotes : ∀ (f : List Char), undup (dupQuotes f) = f
  | [] => rfl
  | c :: cs => by
      by_cases hc : c = '"'
      · subst hc
        rw [dupQuotes_cons, if_pos rfl, undup_cons2, if_pos rfl, if_pos rfl,
          undup_dupQuotes cs]
      · rw [dupQuotes_cons, if_neg hc, undup_cons_ne c hc, undup_dupQuotes cs]

theorem unescapeField_escapeField (d : Char) (hd1 : d ≠ '"') (f : List Char) :
    unescapeField (escapeField d f) = f := by
  rw [escapeField]
  by_cases hnq : needsQuote d f = true
  · rw [if_pos hnq, unescapeField_cons, if_pos rfl, List.dropLast_concat,
      undup_dupQuotes]
  · rw [if_neg hnq]
    cases f with
    | nil => rfl
    | cons c cs =>
        have hcq : c ≠ '"' := by
          intro hcq
          apply hnq
          subst hcq
          simp [needsQuote, specialChar]
        rw [unescapeField_cons, if_neg hcq]

theorem writeRecord_ne_nil (d : Char) :
    ∀ (fields : List (List Char)), 2 ≤ fields.length → writeRecord d fields ≠ []
  | [], h => by simp at h
  | [f], h => by simp at h
  | f :: g :: fs, _ => by
      rw [writeRecord_cons2]
      intro h
      rcases List.append_eq_nil.mp h with ⟨_, h2⟩
      simp at h2

/-- The round trip: parsing a written payload recovers the grid exactly,
for any delimiter other than the quote and record-break characters and any
grid whose records have at least two fields. -/
theorem parseDelim_writeDelim (d : Char) (hd1 : d ≠ '"') (hd2 : d ≠ '\n')
    (g : List (List (List Char))) (hg : ∀ r ∈ g, 2 ≤ r.length) :
    parseDelim d (writeDelim d g) = g := by
  rw [parseDelim, splitQ_writeDelim d hd1 hd2 g]
  have hfilter : (g.map (writeRecord d) ++ [[]]).filter (fun r => !r.isEmpty)
      = g.map (writeRecord d) := by
    rw [List.filter_append]
    have h2 : ([([] : List Char)].filter (fun r => !r.isEmpty)) = [] := rfl
    rw [h2, List.append_nil, List.filter_eq_self]
    intro rec hrec
    rw [List.mem_map] at hrec
    obtain ⟨r, hrm, hrw⟩ := hrec
    have hne := writeRecord_ne_nil d r (hg r hrm)
    rw [← hrw]
    simp [List.isEmpty_iff, hne]
  rw [hfilter, List.map_map]
  have hpointwise : ∀ r ∈ g,
      ((fun line => (splitQ d false line).map unescapeField) ∘ writeRecord d) r = r := by
    intro r hrm
    show (splitQ d false (writeRecord d r)).map unescapeField = r
    have hrne : r ≠ [] := by
      intro h0
      have := hg r hrm
      rw [h0] at this
      simp at this
    rw [splitQ_writeRecord d hd1 hd2 r hrne, List.map_map]
    have h1 : ∀ x ∈ r, (unescapeField ∘ escapeField d) x = x := fun x _ =>
      unescapeField_escapeField d hd1 x
    rw [List.map_congr_left h1]
    exact List.map_id r
  rw [List.map_congr_left hpointwise]
  exact List.map_id g

theorem renderGrid_row_len (df : Frame) (h2 : 2 ≤ df.cols.length)
    (hr : ∀ r ∈ df.rows, r.length = df.cols.length) :
    ∀ row ∈ renderGrid df, 2 ≤ row.length := by
  intro row hrow
  rw [renderGrid] at hrow
  rcases List.mem_cons.mp hrow with h | h
  · rw [h, List.length_map]
    exact h2
  · rw [List.mem_map] at h
    obtain ⟨r, hr2, hrw⟩ := h
    rw [← hrw, List.length_map, hr r hr2]
    exact h2

/-- **C6.** For every frame whose rows match its (at least two) columns —
in particular every post-coercion, post-date-stringification `to_download`
frame — the three export payloads are mutually consistent: parsing the CSV
payload back yields exactly the rendered grid (hence the same row count,
one header plus one record per row, and the same column set in the same
order), the TSV payload parses to the identical grid, and the spreadsheet
sheet is that same grid; dates are stringified to `YYYY-MM-DD` text by the
`to_download` step, and missing numeric values render as empty cells, not
as zero. -/
theorem c6_exports_consistent (df : Frame) (h2 : 2 ≤ df.cols.length)
    (hr : ∀ r ∈ df.rows, r.length = df.cols.length) :
    parseDelim ',' (csv_bytes df) = renderGrid df ∧
    parseDelim '\t' (tsv_bytes df) = renderGrid df ∧
    make_excel_bytes df = renderGrid df ∧
    (parseDelim ',' (csv_bytes df)).length = df.rows.length + 1 ∧
    (parseDelim ',' (csv_bytes df)).head? = some (df.cols.map String.data) ∧
    (∀ y m dd, strftimeCell (Cell.date y m dd) = Cell.text (fmtDate y m dd)) ∧
    renderCell Cell.missing = [] ∧
    renderCell Cell.missing ≠ renderCell (Cell.num 0) := by
  have hrows := renderGrid_row_len df h2 hr
  have hcsv : parseDelim ',' (csv_bytes df) = renderGrid df :=
    parseDelim_writeDelim ',' (by decide) (by decide) _ hrows
  have htsv : parseDelim '\t' (tsv_bytes df) = renderGrid df :=
    parseDelim_writeDelim '\t' (by decide) (by decide) _ hrows
  refine ⟨hcsv, htsv, rfl, ?_, ?_, fun y m dd => rfl, rfl, by decide⟩
  · rw [hcsv, renderGrid]
    simp
  · rw [hcsv, renderGrid]
    rfl

theorem c6_exports_consistent_witness :
    (2 ≤ expW.cols.length ∧ ∀ r ∈ expW.rows, r.length = expW.cols.length) ∧
    (parseDelim ',' (csv_bytes expW) = renderGrid expW ∧
      parseDelim '\t' (tsv_bytes expW) = renderGrid expW ∧
      make_excel_bytes expW = renderGrid expW ∧
      (parseDelim ',' (csv_bytes expW)).length = expW.rows.length + 1 ∧
      (parseDelim ',' (csv_bytes expW)).head? = some (expW.cols.map String.data) ∧
      (∀ y m dd, strftimeCell (Cell.date y m dd) = Cell.text (fmtDate y m dd)) ∧
      renderCell Cell.missing = [] ∧
      renderCell Cell.missing ≠ renderCell (Cell.num 0)) :=
  ⟨⟨by decide, by decide⟩, c6_exports_consistent expW (by decide) (by decide)⟩

theorem c10_amended_witness :
    (∀ r ∈ nnW.rows, ∀ q : ℚ,
      r.getD (colIdx "Cumulative_cases" nnW.cols) Cell.missing = Cell.num q → 0 ≤ q) ∧
    ((∀ v ∈ (top nnW).map Prod.snd, 0 ≤ v) ∧
      (∀ k : Cell, k ∈ (total_cases nnW).map Prod.fst →
        cellsMax ((nnW.rows.filter
            (fun r => r.getD (colIdx "Country" nnW.cols) Cell.missing = k)).map
          (fun r => r.getD (colIdx "Cumulative_cases" nnW.cols) Cell.missing)) = none →
        (k, 0) ∈ total_cases nnW)) := by
  have h : ∀ r ∈ nnW.rows, ∀ q : ℚ,
      r.getD (colIdx "Cumulative_cases" nnW.cols) Cell.missing = Cell.num q → 0 ≤ q := by
    intro r hr q hq
    rcases List.mem_cons.mp hr with h1 | h1
    · rw [h1] at hq
      have he : ([Cell.text "A", Cell.num 4].getD
          (colIdx "Cumulative_cases" nnW.cols) Cell.missing) = Cell.num 4 := rfl
      rw [he] at hq
      injection hq with h4
      rw [← h4]
      decide
    · rcases List.mem_cons.mp h1 with h2 | h2
      · rw [h2] at hq
        have he : ([Cell.text "B", Cell.missing].getD
            (colIdx "Cumulative_cases" nnW.cols) Cell.missing) = Cell.missing := rfl
        rw [he] at hq
        simp at hq
      · simp at h2
  exact ⟨h, c10_amended nnW h⟩
